import Mathlib

/-!
Shallow embedding of the nsq-rs message broker core, together with proofs
about its message wire format, codecs, channel registry, deferred-message
heap, guid generator, topic fan-out and name validation.

Bytes are modelled as natural numbers; every writer in the embedding only
emits values below 256, mirroring the `u8` byte streams of the source.
Machine integers are modelled as `Nat`/`Int` with explicit reductions
modulo powers of two where the source wraps.
-/

namespace NsqRs

/-! ## Byte-level helpers (bytes crate: put_u64 / put_u16 / from_be_bytes) -/

/-- Big-endian byte encoding of width `w`: the `w` low-order bytes of `n`,
most significant first. `BufMut::put_u64` / `put_u16` with `w = 8` / `2`. -/
def beBytes : Nat → Nat → List Nat
  | 0, _ => []
  | w + 1, n => beBytes w (n / 256) ++ [n % 256]

/-- Big-endian byte decoding, `uXX::from_be_bytes`. -/
def fromBeBytes (l : List Nat) : Nat :=
  l.foldl (fun acc b => acc * 256 + b) 0

/-- Bounds-checked slice `b[lo..hi]`; `none` models the panic of the `bytes`
crate's indexing / `Bytes::slice` on an out-of-range range. -/
def slice? (b : List Nat) (lo hi : Nat) : Option (List Nat) :=
  if lo ≤ hi ∧ hi ≤ b.length then some ((b.drop lo).take (hi - lo)) else none

/-- Rust `String::from_utf8` followed by `str::parse::<u64>`: an optional
leading plus sign, then one or more ASCII digits, value below `2 ^ 64`.
Any other byte string fails (non-UTF8 bytes are not digits, so both the
UTF-8 check and the digit check collapse to the same `none`). -/
def parseU64 (l : List Nat) : Option Nat :=
  let digits := match l with
    | 43 :: rest => rest
    | _ => l
  if digits ≠ [] ∧ digits.all (fun b => 48 ≤ b ∧ b ≤ 57) then
    let v := digits.foldl (fun a b => a * 10 + (b - 48)) 0
    if v < 2 ^ 64 then some v else none
  else none

/-- Rust `format!("\x7b:?\x7d", name)` on a `&[u8]`: decimal bytes in brackets. -/
def byteDebug (name : List Nat) : String :=
  "[" ++ String.intercalate ", " (name.map (fun b => toString b)) ++ "]"

/-! ## Errors (src/errors.rs)

Only the variants reachable from the verified operations are embedded;
the remaining variants of `NsqError` (IO, channel-send payloads, disk
queue) are never produced by the functions modelled here. -/

inductive NsqError
  | invalidMsgLength
  | maxSubscriberReached (n : Nat)
  | exiting
  | fatalClientErr (code msg : String)
  deriving DecidableEq, Repr

/-! ## Message (src/src/nsqd/message.rs) -/

/-- `MSG_ID_LENGTH` -/
def msgIdLength : Nat := 16

/-- `MIN_VALID_MSG_LEN = MSG_ID_LENGTH + 8 + 2` -/
def minValidMsgLen : Nat := msgIdLength + 8 + 2

/-- The `Message` value object.  The runtime-only bookkeeping fields
(`delivery_ts`, `client_id`, `pri`, `index`) are not observable by any
verified operation and are omitted; `deferred` keeps the deferral delay
in nanoseconds. -/
structure Message where
  id : List Nat
  body : List Nat
  timestamp : Nat
  attempts : Nat
  deferred : Option Nat := none
  deriving DecidableEq, Repr

/-- `Message::put_to`: `u64` timestamp, `u16` attempts, the 16 id bytes,
then the body. -/
def Message.putTo (m : Message) : List Nat :=
  beBytes 8 m.timestamp ++ beBytes 2 m.attempts ++ m.id ++ m.body

/-- `Message::decode`.  `none` models a panic (an out-of-bounds slice);
the source slices `b[..8]`, `b[8..10]`, `b[10..10+MSG_ID_LENGTH]` and
`b.slice(10..MSG_ID_LENGTH)` — the body slice bounds are transcribed
exactly as written in the source. -/
def Message.decode (b : List Nat) : Option (Except NsqError Message) :=
  if b.length < minValidMsgLen then
    some (.error .invalidMsgLength)
  else
    match slice? b 0 8, slice? b 8 10, slice? b 10 (10 + msgIdLength),
        slice? b 10 msgIdLength with
    | some tsB, some atB, some idB, some bodyB =>
        some (.ok { id := idB, body := bodyB, timestamp := fromBeBytes tsB,
                    attempts := fromBeBytes atB, deferred := none })
    | _, _, _, _ => none

/-! ## Deferred-message heap items (src/src/nsqd/message.rs, `MsgItem`) -/

/-- `MsgItem(pub u128, pub Message)`: an absolute deadline in nanoseconds
paired with a message. -/
abbrev MsgItem := Nat × Message

/-- The `Ord` impl of `MsgItem`: `other.0.cmp(&self.0)` — comparison of the
deadlines, reversed, so that Rust's max-`BinaryHeap` behaves as a min-heap
on deadlines. -/
def msgItemCmp (a b : MsgItem) : Ordering := compare b.1 a.1

/-- `BinaryHeap::peek`/`pop` on a heap modelled as a list: selects a
greatest element with respect to the `MsgItem` ordering together with the
remaining elements.  Among `Ord`-equal items (equal deadlines) `BinaryHeap`
leaves the choice unspecified; this model deterministically keeps the
earliest listed one. -/
def heapPopMax : List MsgItem → Option (MsgItem × List MsgItem)
  | [] => none
  | x :: xs =>
    match heapPopMax xs with
    | none => some (x, [])
    | some (m, rest) =>
      if msgItemCmp x m = .lt then some (m, x :: rest) else some (x, xs)

/-! ## Channel (src/src/nsqd/channel.rs)

The embedded state keeps the fields the verified operations touch: the
`exit_flag` latch, the client registry (`DashMap` keys, i.e. the client
ids — `add_client` stores each client wrapped as `Client::SubV2`), the
configured `max_channel_subscribers`, and the deferred priority queue
`defered_pq`.  (`defered_msgs` is allocated but never written by the
source; the counters and the in-memory mpmc queue are not touched by the
operations verified here.) -/

structure Channel where
  exitFlag : Bool
  clients : List Int
  maxChannelSubscribers : Nat
  deferedPq : List MsgItem
  deriving Repr

/-- `Channel::exiting`: a load of the `exit_flag` latch. -/
def Channel.exiting (ch : Channel) : Bool := ch.exitFlag

/-- `Channel::add_client`: reject when exiting; duplicate ids are a
successful no-op; reject when the registry already holds
`max_channel_subscribers` clients; otherwise register the client
(as `Client::SubV2`, represented by its id). -/
def Channel.addClient (ch : Channel) (cid : Int) : Except NsqError Unit × Channel :=
  if ch.exiting then (.error .exiting, ch)
  else if cid ∈ ch.clients then (.ok (), ch)
  else if ch.maxChannelSubscribers ≤ ch.clients.length then
    (.error (.maxSubscriberReached ch.maxChannelSubscribers), ch)
  else (.ok (), { ch with clients := cid :: ch.clients })

/-- Fold a sequence of `add_client` calls, keeping the evolving state. -/
def Channel.runAddClients (ch : Channel) (ids : List Int) : Channel :=
  ids.foldl (fun c i => (c.addClient i).2) ch

/-- `Channel::exit`: `compare_exchange(false, true)` on the latch — the
loser observes `Exiting`; the winner closes every registered client
(`SubscriberV2::close` is a no-op on the registry) and returns `Ok`.
The `deleted` flag only selects logging / TODO paths in the source. -/
def Channel.exit (ch : Channel) (deleted : Bool) : Except NsqError Unit × Channel :=
  if ch.exitFlag then (.error .exiting, ch)
  else
    let _ := deleted
    (.ok (), { ch with exitFlag := true })

/-- `Channel::pop_defered_msg(curr)`: peek the heap; when the front item's
deadline is at most `curr`, pop it and return its message, otherwise
return nothing and leave the heap alone. -/
def Channel.popDeferedMsg (ch : Channel) (curr : Nat) : Option Message × Channel :=
  match heapPopMax ch.deferedPq with
  | some (m, rest) =>
    if m.1 ≤ curr then (some m.2, { ch with deferedPq := rest })
    else (none, ch)
  | none => (none, ch)

/-! ## Guid factory (src/src/nsqd/guid.rs)

`new_guid` samples `SystemTime::now()` nanoseconds shifted right by 20
bits; the sample `ts` is made an explicit input here.  `i64` values are
carried as unbounded `Int` with two's-complement wrapping applied where
the source performs bit operations. -/

/-- `TWEPOCH` -/
def twepoch : Int := 1288834974288

/-- The two's-complement 64-bit pattern of an `i64` value. -/
def u64Of (x : Int) : Nat := (x % (2 ^ 64 : Int)).toNat

/-- Read a 64-bit pattern back as a signed `i64` value. -/
def i64Of (n : Nat) : Int :=
  if n < 2 ^ 63 then (n : Int) else (n : Int) - 2 ^ 64

/-- `i64` left shift: bits shifted past the top are discarded. -/
def shlWrap (n k : Nat) : Nat := (n <<< k) % 2 ^ 64

inductive GuidError
  | timeBackwards
  | sequenceExpired
  | idBackwards
  deriving DecidableEq, Repr

structure GuidFactory where
  nodeId : Int
  sequence : Int
  lastTimestamp : Int
  lastId : Int
  deriving Repr

/-- `GuidFactory::new_guid` with the sampled clock value `ts` as an
explicit input.  State mutations on the error paths follow the source:
`TimeBackwards` leaves the factory untouched, `SequenceExpired` has
already wrapped `sequence` to 0, `IDBackwards` has already stored the new
`sequence` and `last_timestamp`.  `(sequence + 1) & SEQUENCE_MASK` is the
Euclidean remainder modulo `2 ^ 12`. -/
def GuidFactory.newGuid (f : GuidFactory) (ts : Int) :
    Except GuidError Int × GuidFactory :=
  if ts < f.lastTimestamp then (.error .timeBackwards, f)
  else
    let seq := if f.lastTimestamp = ts then (f.sequence + 1) % 4096 else 0
    if f.lastTimestamp = ts ∧ seq = 0 then
      (.error .sequenceExpired, { f with sequence := seq })
    else
      let f1 := { f with sequence := seq, lastTimestamp := ts }
      let idPat := shlWrap (u64Of (ts - twepoch)) 22 |||
        shlWrap (u64Of f.nodeId) 12 ||| u64Of seq
      let id := i64Of idPat
      if id ≤ f.lastId then (.error .idBackwards, f1)
      else (.ok id, { f1 with lastId := id })

/-- The guids returned by the successful calls of a call sequence. -/
def GuidFactory.runGuids : GuidFactory → List Int → List Int
  | _, [] => []
  | f, ts :: rest =>
    match f.newGuid ts with
    | (.ok g, f') => g :: f'.runGuids rest
    | (.error _, f') => f'.runGuids rest

/-! ## Topic (src/src/nsqd/topic.rs)

`put_msg` sends on a `tokio::sync::broadcast` channel whose receivers are
held by the registered channels (one subscription per `add_channel`).  A
broadcast send delivers to every receiver that exists at send time and
fails with `SendError` exactly when there is no receiver — in which case
`put_msg` still returns `Ok` and the message is dropped.  Each channel's
entry records the backlog its receiver has been sent. -/

structure Topic where
  channels : List (String × List Message)
  deriving Repr

/-- `Topic::put_msg`: broadcast to every currently registered channel;
with zero receivers the send error is swallowed and `Ok` returned. -/
def Topic.putMsg (t : Topic) (msg : Message) : Except NsqError Unit × Topic :=
  if t.channels.isEmpty then (.ok (), t)
  else (.ok (), { t with channels := t.channels.map (fun c => (c.1, c.2 ++ [msg])) })

/-- `Topic::add_channel`, registry part: a no-op when the name exists,
otherwise a fresh channel whose broadcast receiver starts with an empty
backlog (a `broadcast::Receiver` only observes messages sent after
`subscribe`).  Client attachment and the spawned serve task do not touch
the message backlog and are omitted. -/
def Topic.addChannel (t : Topic) (name : String) : Topic :=
  if t.channels.any (fun c => c.1 = name) then t
  else { t with channels := (name, []) :: t.channels }

/-! ## Topic/channel name validation
(src/src/nsqd/command.rs `check_name`, src/src/nsqd/protocol/codec_v2.rs
`try_to_string_name`; both use the regex `^[.a-zA-Z0-9_-]+(#ephemeral)?$`
guarded by a length of 2 to 64). -/

/-- Membership in the regex character class `[.a-zA-Z0-9_-]`. -/
def isNameChar (b : Nat) : Bool :=
  b == 46 || b == 45 || b == 95 ||
  (decide (48 ≤ b) && decide (b ≤ 57)) ||
  (decide (65 ≤ b) && decide (b ≤ 90)) ||
  (decide (97 ≤ b) && decide (b ≤ 122))

/-- The bytes of the literal `#ephemeral`. -/
def ephemeralSuffix : List Nat := [35, 101, 112, 104, 101, 109, 101, 114, 97, 108]

/-- The language of the anchored regex `^[.a-zA-Z0-9_-]+(#ephemeral)?$`:
either the whole input is one or more class characters, or it ends with
the literal `#ephemeral` preceded by one or more class characters.  (The
class excludes `#`, so the two branches cover the regex exactly.) -/
def nameRegexMatches (n : List Nat) : Bool :=
  (!n.isEmpty && n.all isNameChar) ||
  (decide (ephemeralSuffix <:+ n) &&
    (!(n.take (n.length - ephemeralSuffix.length)).isEmpty &&
      (n.take (n.length - ephemeralSuffix.length)).all isNameChar))

/-- The `E_BAD_TOPIC` fatal error, message as formatted by the source. -/
def badTopicErr (name : List Nat) : NsqError :=
  .fatalClientErr "E_BAD_TOPIC" ("PUB topic name " ++ byteDebug name ++ " is not valid")

/-- `check_name` (command.rs): accept iff the length is within 2..=64 and
the regex matches. -/
def checkName (name : List Nat) : Except NsqError Unit :=
  if 2 ≤ name.length ∧ name.length ≤ 64 ∧ nameRegexMatches name then .ok ()
  else .error (badTopicErr name)

/-- `try_to_string_name` (codec_v2.rs): same guard; on success the bytes
are kept as the name (`String::from_utf8_unchecked`). -/
def tryToStringName (name : List Nat) : Except NsqError (List Nat) :=
  if 2 ≤ name.length ∧ name.length ≤ 64 ∧ nameRegexMatches name then .ok name
  else .error (badTopicErr name)

/-- The specification's acceptance predicate: length 2 to 64 inclusive,
and the input is one or more charset characters followed by an optional
literal `#ephemeral`.  Stated from the spec's words, to be compared with
the source-derived validators. -/
def specNameOk (n : List Nat) : Prop :=
  2 ≤ n.length ∧ n.length ≤ 64 ∧
  ∃ core suffix, n = core ++ suffix ∧ core ≠ [] ∧
    (∀ b ∈ core, isNameChar b = true) ∧ (suffix = [] ∨ suffix = ephemeralSuffix)

/-! ## Wire codec V2 (src/src/nsqd/protocol/codec_v2.rs) -/

/-- `read_timeout`: parse a decimal millisecond count. -/
def readTimeout (ms : List Nat) : Except NsqError Nat :=
  match parseU64 ms with
  | some n => .ok n
  | none => .error (.fatalClientErr "E_INVALID" "Invalid message timeout")

/-- `splitn(3, b' ')` followed by taking the (first, second, third) parts:
the first token, then up to two further pieces, the last keeping any
remaining spaces. -/
def splitn3 (l : List Nat) : List Nat × Option (List Nat) × Option (List Nat) :=
  let first := l.takeWhile (fun b => b ≠ 32)
  if first.length = l.length then (l, none, none)
  else
    let r1 := l.drop (first.length + 1)
    let second := r1.takeWhile (fun b => b ≠ 32)
    if second.length = r1.length then (first, some r1, none)
    else (first, some second, some (r1.drop (second.length + 1)))

/-- The frames of `protocol::frame_v2::Frame` as used by `CodecV2`:
`MPUB` carries its `Vec` capacity explicitly (`Vec::new()` starts at 0,
the body reader allocates `with_capacity(msg_cnt)`). -/
inductive Frame
  | NOP
  | SUB (topic channel : List Nat)
  | PUB (topic : List Nat) (body : List Nat)
  | DPUB (topic : List Nat) (ms : Nat) (body : List Nat)
  | MPUB (topic : List Nat) (cap : Nat) (msgs : List (List Nat))
  | AUTH (bytes : List Nat)
  deriving DecidableEq, Repr

inductive FrameState
  | completed
  | incomplete
  | err (e : NsqError)
  deriving DecidableEq, Repr

/-- `read_msg_body`: a 4-byte big-endian length prefix followed by that
many body bytes; anything shorter leaves the buffer untouched.  Returns
the frame state, the (possibly replaced) body and the remaining buffer. -/
def readMsgBody (src : List Nat) (bytes : List Nat) :
    FrameState × List Nat × List Nat :=
  if src.length < 4 then (.incomplete, bytes, src)
  else
    let bodySize := fromBeBytes (src.take 4)
    if src.length < bodySize + 4 then (.incomplete, bytes, src)
    else (.completed, (src.drop 4).take bodySize, src.drop (bodySize + 4))

/-- The `while msgs.len() != msgs.capacity()` loop of
`read_multi_msg_body`, recursing on the number of still-missing bodies. -/
def readBodiesLoop : Nat → List (List Nat) → List Nat →
    FrameState × List (List Nat) × List Nat
  | 0, msgs, src => (.completed, msgs, src)
  | k + 1, msgs, src =>
    match readMsgBody src [] with
    | (.completed, body, src') => readBodiesLoop k (msgs ++ [body]) src'
    | (st, _, _) => (st, msgs, src)

/-- `read_multi_msg_body`: on the first call (capacity 0) read the 8-byte
MPUB header — total size (must exceed 8) and message count (must be at
least 1) — then collect length-prefixed bodies until the capacity is
reached. -/
def readMultiMsgBody (src : List Nat) (cap : Nat) (msgs : List (List Nat)) :
    FrameState × Nat × List (List Nat) × List Nat :=
  if cap = 0 then
    if src.length < 8 then (.incomplete, cap, msgs, src)
    else
      let size := fromBeBytes (src.take 4)
      if size ≤ 8 then
        (.err (.fatalClientErr "E_BAD_BODY" "MPUB invalid total message size"),
          cap, msgs, src)
      else
        let cnt := fromBeBytes ((src.drop 4).take 4)
        if cnt < 1 then
          (.err (.fatalClientErr "E_BAD_BODY" "MPUB invalid message count"),
            cap, msgs, src)
        else
          let (st, msgs', src') := readBodiesLoop cnt [] (src.drop 8)
          (st, cnt, msgs', src')
  else
    let (st, msgs', src') := readBodiesLoop (cap - msgs.length) msgs src
    (st, cap, msgs', src')

/-- The command-line match of `CodecV2::init_frame` on a completed line. -/
def parseCmdLine (buf : List Nat) : Except NsqError Frame :=
  match splitn3 buf with
  | ([78, 79, 80], none, none) => .ok .NOP
  | ([83, 85, 66], some topicName, some channelName) => do
    let t ← tryToStringName topicName
    let c ← tryToStringName channelName
    .ok (.SUB t c)
  | ([80, 85, 66], some topicName, none) => do
    let t ← tryToStringName topicName
    .ok (.PUB t [])
  | ([68, 80, 85, 66], some topicName, some msStr) => do
    let t ← tryToStringName topicName
    let ms ← readTimeout msStr
    .ok (.DPUB t ms [])
  | ([77, 80, 85, 66], some topicName, none) => do
    let t ← tryToStringName topicName
    .ok (.MPUB t 0 [])
  | _ => .error (.fatalClientErr "E_BAD_CMD" "Invalid command")

/-- The decoder state: the scan position `next_index` and the pending
partially-received frame. -/
structure CodecV2 where
  nextIndex : Nat
  frame : Option Frame
  deriving Repr

/-- `CodecV2::init_frame`: scan for a newline starting at `next_index`;
without one, remember the scanned length and ask for more data.  With one,
the source passes the newline position *relative to `next_index`* to
`split_to` (which treats it as absolute), consumes that prefix as the
command line plus one further byte, resets `next_index`, and parses the
line.  The relative offset is transcribed exactly as the source uses it. -/
def CodecV2.initFrame (c : CodecV2) (src : List Nat) :
    Except NsqError (Option Frame) × CodecV2 × List Nat :=
  match (src.drop c.nextIndex).findIdx? (fun b => b = 10) with
  | none => (.ok none, { c with nextIndex := src.length }, src)
  | some lfRel =>
    let buf := src.take lfRel
    let src' := src.drop (lfRel + 1)
    let c' := { c with nextIndex := 0 }
    ((parseCmdLine buf).map some, c', src')

/-- The body-reading half of `CodecV2::decode`, dispatching on the pending
frame; completed frames are taken out of the state (`self.frame.take()`),
incomplete ones are kept with their partially-filled buffers. -/
def CodecV2.decodeBody (c : CodecV2) (src : List Nat) :
    Except NsqError (Option Frame) × CodecV2 × List Nat :=
  match c.frame with
  | none => (.ok none, c, src)
  | some f =>
    match f with
    | .NOP => (.ok (some f), { c with frame := none }, src)
    | .SUB _ _ => (.ok (some f), { c with frame := none }, src)
    | .PUB name body =>
      match readMsgBody src body with
      | (.completed, body', src') =>
        (.ok (some (.PUB name body')), { c with frame := none }, src')
      | (.incomplete, body', src') =>
        (.ok none, { c with frame := some (.PUB name body') }, src')
      | (.err e, body', src') =>
        (.error e, { c with frame := some (.PUB name body') }, src')
    | .DPUB name ms body =>
      match readMsgBody src body with
      | (.completed, body', src') =>
        (.ok (some (.DPUB name ms body')), { c with frame := none }, src')
      | (.incomplete, body', src') =>
        (.ok none, { c with frame := some (.DPUB name ms body') }, src')
      | (.err e, body', src') =>
        (.error e, { c with frame := some (.DPUB name ms body') }, src')
    | .MPUB name cap msgs =>
      match readMultiMsgBody src cap msgs with
      | (.completed, cap', msgs', src') =>
        (.ok (some (.MPUB name cap' msgs')), { c with frame := none }, src')
      | (.incomplete, cap', msgs', src') =>
        (.ok none, { c with frame := some (.MPUB name cap' msgs') }, src')
      | (.err e, cap', msgs', src') =>
        (.error e, { c with frame := some (.MPUB name cap' msgs') }, src')
    | .AUTH _ => (.ok none, c, src)

/-- `CodecV2::decode` (one call): establish a frame header via
`init_frame` when none is pending — returning directly on "need more
data" or a parse error — then read the frame's body. -/
def CodecV2.decode (c : CodecV2) (src : List Nat) :
    Except NsqError (Option Frame) × CodecV2 × List Nat :=
  match c.frame with
  | none =>
    match c.initFrame src with
    | (.ok (some f), c', src') => CodecV2.decodeBody { c' with frame := some f } src'
    | other => other
  | some _ => CodecV2.decodeBody c src

/-- The `FramedRead` read loop after new bytes arrive: call `decode`
until it reports "need more data" or fails, collecting emitted frames.
The fuel bounds the number of calls; each frame-emitting call consumes at
least one byte, so `src.length + 1` calls always suffice. -/
def drainLoop : Nat → CodecV2 → List Nat →
    List Frame × Option NsqError × CodecV2 × List Nat
  | 0, c, src => ([], none, c, src)
  | fuel + 1, c, src =>
    match c.decode src with
    | (.ok (some f), c', src') =>
      let (fs, e, c'', src'') := drainLoop fuel c' src'
      (f :: fs, e, c'', src'')
    | (.ok none, c', src') => ([], none, c', src')
    | (.error e, c', src') => ([], some e, c', src')

/-- Feed successive fragments of a byte stream to the decoder, as a
`FramedRead` over a TCP socket would: append each fragment to the
buffer, then drain. -/
def feedFragments : List (List Nat) → CodecV2 → List Nat →
    List Frame × Option NsqError
  | [], _, _ => ([], none)
  | frag :: rest, c, buf =>
    let buf' := buf ++ frag
    let (fs, e, c', buf'') := drainLoop (buf'.length + 1) c buf'
    match e with
    | some err => (fs, some err)
    | none =>
      let (fs', e') := feedFragments rest c' buf''
      (fs ++ fs', e')

/-- Decode a whole stream delivered in the given fragments, from a fresh
decoder. -/
def runStream (frags : List (List Nat)) : List Frame × Option NsqError :=
  feedFragments frags ⟨0, none⟩ []

/-! ## Subscribed-client codec (src/src/nsqd/protocol/codec_sub_v2.rs) -/

/-- The frames of `protocol::frame_v2::FrameSub` as used by
`CodecSubV2`; `RDY` carries the parsed `u64` cast to `i64`. -/
inductive FrameSub
  | CLS
  | NOP
  | FIN (msgId : List Nat)
  | RDY (cnt : Int)
  | REQ (msgId : List Nat) (ms : Nat)
  | TOUCH (msgId : List Nat)
  deriving DecidableEq, Repr

/-- `read_msg_id`: reject only fields shorter than `MSG_ID_LENGTH`; a
longer field is truncated to its first 16 bytes. -/
def readMsgId (buf : List Nat) : Except NsqError (List Nat) :=
  if buf.length < msgIdLength then
    .error (.fatalClientErr "E_INVALID" "Invalid message ID")
  else .ok (buf.take msgIdLength)

/-- `CodecSubV2::decode` (one call): find a newline starting at
`next_index` (the same relative-offset `split_to` as `CodecV2`), split
the line into up to three space-separated parts and dispatch. -/
def subDecode (nextIndex : Nat) (src : List Nat) :
    Except NsqError (Option FrameSub) × Nat × List Nat :=
  match (src.drop nextIndex).findIdx? (fun b => b = 10) with
  | none => (.ok none, src.length, src)
  | some lfRel =>
    let buf := src.take lfRel
    let src' := src.drop (lfRel + 1)
    let res : Except NsqError FrameSub :=
      match splitn3 buf with
      | ([67, 76, 83], none, none) => .ok .CLS
      | ([78, 79, 80], none, none) => .ok .NOP
      | ([70, 73, 78], some msgId, none) => do
        let i ← readMsgId msgId
        .ok (.FIN i)
      | ([82, 68, 89], some cnt, none) =>
        match parseU64 cnt with
        | some n => .ok (.RDY (i64Of n))
        | none => .error (.fatalClientErr "E_INVALID" "Invalid message timeout")
      | ([82, 69, 81], some msgId, some ms) => do
        let i ← readMsgId msgId
        let t ← readTimeout ms
        .ok (.REQ i t)
      | ([84, 79, 85, 67, 72], some msgId, none) => do
        let i ← readMsgId msgId
        .ok (.TOUCH i)
      | _ => .error (.fatalClientErr "E_BAD_CMD" "Invalid command")
    ((res.map some), 0, src')

/-! ## Line-command parsers (src/src/nsqd/command.rs)

`FrameSub::parse` reads one `\n`-terminated line with `read_until` (the
buffer keeps the trailing newline: the source calls `trim_ascii_end`
but discards its result), matches the first space-delimited token, drains
the token's bytes — not the following space — and hands the rest to the
per-command parser. -/

/-- `command::Error`; only the fatal-client variant is reachable from the
line parsers modelled here. -/
inductive CmdError
  | fatalClientErr (code msg : String)
  deriving DecidableEq, Repr

/-- `command::FrameSub` (`RDY` holds a `usize`). -/
inductive CmdFrameSub
  | CLS
  | FIN (msgId : List Nat)
  | NOP
  | RDY (cnt : Nat)
  | REQ (msgId : List Nat) (ms : Nat)
  | TOUCH (msgId : List Nat)
  deriving DecidableEq, Repr

/-- `parse_fin`: the remaining buffer must be exactly 16 bytes. -/
def parseFin (buf : List Nat) : Except CmdError CmdFrameSub :=
  if buf.length ≠ 16 then
    .error (.fatalClientErr "E_INVALID" "Invalid message ID")
  else .ok (.FIN (buf.take msgIdLength))

/-- `parse_touch`: the remaining buffer must be exactly `MSG_ID_LENGTH`. -/
def parseTouch (buf : List Nat) : Except CmdError CmdFrameSub :=
  if buf.length ≠ msgIdLength then
    .error (.fatalClientErr "E_INVALID" "Invalid message ID")
  else .ok (.TOUCH (buf.take msgIdLength))

/-- `parse_rdy`: parse the remaining buffer as a decimal `u64`. -/
def parseRdy (buf : List Nat) : Except CmdError CmdFrameSub :=
  match parseU64 buf with
  | some n => .ok (.RDY n)
  | none => .error (.fatalClientErr "E_INVALID" "Invalid message timeout")

/-- `parse_req`: at least 16 bytes of id, the rest a decimal timeout. -/
def parseReq (buf : List Nat) : Except CmdError CmdFrameSub :=
  if buf.length < msgIdLength then
    .error (.fatalClientErr "E_INVALID" "Invalid message ID")
  else
    match parseU64 (buf.drop msgIdLength) with
    | some t => .ok (.REQ (buf.take msgIdLength) t)
    | none => .error (.fatalClientErr "E_INVALID" "Invalid message timeout")

/-- `FrameSub::parse` on one delivered line (the bytes `read_until`
yields, trailing newline included when the stream has one).  The drained
byte counts (3 for CLS-length tokens, 5 for TOUCH) are the source's. -/
def fsParse (line : List Nat) : Except CmdError CmdFrameSub :=
  let buf := line
  let cmd := buf.takeWhile (fun b => b ≠ 32)
  if cmd = [67, 76, 83] then .ok .CLS
  else if cmd = [70, 73, 78] then parseFin (buf.drop 3)
  else if cmd = [78, 79, 80] then .ok .NOP
  else if cmd = [82, 69, 81] then parseReq (buf.drop 3)
  else if cmd = [82, 68, 89] then parseRdy (buf.drop 3)
  else if cmd = [84, 79, 85, 67, 72] then parseTouch (buf.drop 5)
  else .error (.fatalClientErr "E_BAD_CMD" "Invalid command")

/-! ## Theorems -/

/-- Helper for C10: on a buffer of at least `MIN_VALID_MSG_LEN` bytes,
`Message::decode` succeeds (all slices are in bounds) and yields exactly
the fields the source extracts. -/
theorem decode_of_long (b : List Nat) (h : minValidMsgLen ≤ b.length) :
    Message.decode b = some (.ok
      { id := (b.drop 10).take 16, body := (b.drop 10).take 6,
        timestamp := fromBeBytes (b.take 8),
        attempts := fromBeBytes ((b.drop 8).take 2), deferred := none }) := by
  have h26 : 26 ≤ b.length := by
    simpa [minValidMsgLen, msgIdLength] using h
  have h1 : ¬ b.length < minValidMsgLen := by
    simp only [minValidMsgLen, msgIdLength]; omega
  unfold Message.decode slice?
  rw [if_neg h1, if_pos (by omega), if_pos (by omega),
    if_pos (by simp only [msgIdLength]; omega),
    if_pos (by simp only [msgIdLength]; omega)]
  simp [msgIdLength]

/-- C10: `Message::decode(b)` returns `Err(InvalidMsgLength)` exactly when
`b` is shorter than 26 bytes, returns `Ok` for every input of at least 26
bytes, and never panics (the model never reaches the `none` panic case). -/
theorem c10_decode_length_guard (b : List Nat) :
    (b.length < 26 ↔ Message.decode b = some (.error .invalidMsgLength)) ∧
    (26 ≤ b.length → ∃ m, Message.decode b = some (.ok m)) := by
  have hmin : minValidMsgLen = 26 := by simp [minValidMsgLen, msgIdLength]
  constructor
  · constructor
    · intro h
      unfold Message.decode
      rw [if_pos (by omega)]
    · intro he
      by_contra h
      rw [decode_of_long b (by omega)] at he
      simp at he
  · intro h
    exact ⟨_, decode_of_long b (by omega)⟩

/-- C10 witness: a concrete 26-byte buffer decodes successfully, and a
concrete 25-byte buffer reports `InvalidMsgLength`. -/
theorem c10_witness :
    (∃ m, Message.decode (List.replicate 26 0) = some (.ok m)) ∧
    Message.decode (List.replicate 25 0) = some (.error .invalidMsgLength) :=
  ⟨(c10_decode_length_guard (List.replicate 26 0)).2 (by simp),
    (c10_decode_length_guard (List.replicate 25 0)).1.mp (by simp)⟩

/-- C1: encoding a `Message` with `put_to` and decoding the bytes does
NOT restore the body — `decode` slices the body as `b[10..16]` (six bytes
of the id field) instead of `b[26..]`, so a message with body `[1]` comes
back with body `[7, 7, 7, 7, 7, 7]` (its id bytes).  Id, timestamp and
attempts are restored; the body is lost. -/
theorem c1_decode_put_to_loses_body :
    Message.decode (Message.putTo
        { id := List.replicate 16 7, body := [1],
          timestamp := 3, attempts := 2, deferred := none }) =
      some (.ok
        { id := List.replicate 16 7, body := List.replicate 6 7,
          timestamp := 3, attempts := 2, deferred := none }) ∧
    List.replicate 6 7 ≠ [1] := by
  constructor
  · rfl
  · decide

/-- C2: the same byte stream decoded whole and decoded in two fragments
yields different results.  Whole: `"NOP\n"` decodes to the frame `NOP`.
Fragmented as `"NO"` then `"P\n"`: the first call leaves
`next_index = 2`; the second finds the newline at relative position 1 and
`split_to(1)` consumes the line as `"N"`, which fails with `E_BAD_CMD` —
fragmentation changes the decoded sequence, refuting the claim. -/
theorem c2_fragmentation_changes_decoding :
    runStream [[78, 79, 80, 10]] = ([.NOP], none) ∧
    runStream [[78, 79], [80, 10]] =
      ([], some (.fatalClientErr "E_BAD_CMD" "Invalid command")) := by
  constructor
  · rfl
  · rfl

/-- C9: the two FIN decoders do not both accept exactly 16-byte ids.
`CodecSubV2::decode` (via `read_msg_id`) accepts a 17-byte id field and
silently truncates it to its first 16 bytes, and `FrameSub::parse` rejects
a well-formed FIN whose id is exactly 16 bytes (the discarded
`trim_ascii_end` keeps the trailing newline and `drain(..3)` keeps the
separating space, so `parse_fin` sees 18 bytes). -/
theorem c9_fin_id_length_handling :
    subDecode 0 ([70, 73, 78, 32] ++ List.replicate 17 97 ++ [10]) =
      (.ok (some (.FIN (List.replicate 16 97))), 0, []) ∧
    fsParse ([70, 73, 78, 32] ++ List.replicate 16 97 ++ [10]) =
      .error (.fatalClientErr "E_INVALID" "Invalid message ID") := by
  constructor
  · rfl
  · rfl

/-- C5: `Channel::exit` is a one-shot transition.  On a live channel the
first call returns `Ok` and sets the latch; any call on a channel whose
latch is set returns `Err(Exiting)` — in particular every call after the
first.  All outcomes are returned values, never panics. -/
theorem c5_exit_one_shot (ch : Channel) (d d' : Bool) :
    (ch.exitFlag = false →
      ch.exit d = (.ok (), { ch with exitFlag := true }) ∧
      ((ch.exit d).2.exit d').1 = .error .exiting) ∧
    (ch.exitFlag = true → ch.exit d = (.error .exiting, ch)) := by
  constructor
  · intro h
    constructor
    · simp [Channel.exit, h]
    · simp [Channel.exit, h]
  · intro h
    simp [Channel.exit, h]

/-- C5 witness: on a concrete live channel, `exit` succeeds once and the
second call fails with `Exiting`. -/
theorem c5_witness :
    Channel.exit ⟨false, [], 4, []⟩ false =
      (.ok (), { exitFlag := true, clients := [], maxChannelSubscribers := 4,
                 deferedPq := [] }) ∧
    ((Channel.exit ⟨false, [], 4, []⟩ false).2.exit true).1 = .error .exiting :=
  (c5_exit_one_shot ⟨false, [], 4, []⟩ false true).1 rfl

/-- C8: publishing into a topic with zero registered channels returns
`Ok` and leaves the topic unchanged (the message is discarded), and a
channel registered afterwards starts with an empty backlog — it never
sees the discarded message. -/
theorem c8_publish_no_channels (t : Topic) (m : Message) (name : String)
    (h : t.channels = []) :
    t.putMsg m = (.ok (), t) ∧
    ∀ c ∈ ((t.putMsg m).2.addChannel name).channels, c.2 = [] := by
  have hput : t.putMsg m = (.ok (), t) := by
    simp [Topic.putMsg, h]
  refine ⟨hput, ?_⟩
  intro c hc
  rw [hput] at hc
  simp only [Topic.addChannel, h] at hc
  simp at hc
  rw [hc]

/-- C8 witness: a concrete empty topic accepts a publish unchanged, and a
channel added afterwards has an empty backlog. -/
theorem c8_witness :
    Topic.putMsg ⟨[]⟩ { id := [], body := [9], timestamp := 0, attempts := 0 } =
      (.ok (), ⟨[]⟩) ∧
    ∀ c ∈ ((Topic.putMsg ⟨[]⟩
        { id := [], body := [9], timestamp := 0, attempts := 0 }).2.addChannel
        "ch").channels, c.2 = [] :=
  c8_publish_no_channels ⟨[]⟩
    { id := [], body := [9], timestamp := 0, attempts := 0 } "ch" rfl

/-- `add_client` never changes the configured maximum. -/
theorem addClient_max_eq (ch : Channel) (cid : Int) :
    ((ch.addClient cid).2).maxChannelSubscribers = ch.maxChannelSubscribers := by
  unfold Channel.addClient
  split_ifs <;> rfl

/-- One `add_client` call preserves the subscriber bound. -/
theorem addClient_length_le (ch : Channel) (cid : Int)
    (h : ch.clients.length ≤ ch.maxChannelSubscribers) :
    ((ch.addClient cid).2).clients.length ≤ ch.maxChannelSubscribers := by
  unfold Channel.addClient
  split_ifs with h1 h2 h3
  · exact h
  · exact h
  · exact h
  · simp
    omega

/-- Any sequence of `add_client` calls preserves the subscriber bound. -/
theorem runAddClients_length_le :
    ∀ (ids : List Int) (ch : Channel),
      ch.clients.length ≤ ch.maxChannelSubscribers →
      (ch.runAddClients ids).clients.length ≤ ch.maxChannelSubscribers := by
  intro ids
  induction ids with
  | nil => intro ch h; exact h
  | cons i rest ih =>
    intro ch h
    show ((ch.addClient i).2.runAddClients rest).clients.length ≤ _
    have h1 := ih (ch.addClient i).2
      (by rw [addClient_max_eq]; exact addClient_length_le ch i h)
    rwa [addClient_max_eq] at h1

/-- C3: `Channel::add_client` rejects with `Exiting` on an exiting
channel; a duplicate id is an accepted no-op; a fresh id is rejected with
`MaxSubscriberReached` exactly when the registry is full — in particular
the (max+1)-th distinct add fails — and is registered otherwise; and no
sequence of `add_client` calls ever pushes the consumer count past
`max_channel_subscribers`. -/
theorem c3_add_client (ch : Channel) (cid : Int) :
    (ch.exiting = true → ch.addClient cid = (.error .exiting, ch)) ∧
    (ch.exiting = false → cid ∈ ch.clients → ch.addClient cid = (.ok (), ch)) ∧
    (ch.exiting = false → cid ∉ ch.clients →
      ch.maxChannelSubscribers ≤ ch.clients.length →
      ch.addClient cid =
        (.error (.maxSubscriberReached ch.maxChannelSubscribers), ch)) ∧
    (ch.exiting = false → cid ∉ ch.clients →
      ch.clients.length < ch.maxChannelSubscribers →
      ch.addClient cid = (.ok (), { ch with clients := cid :: ch.clients })) ∧
    (∀ ids, ch.clients.length ≤ ch.maxChannelSubscribers →
      (ch.runAddClients ids).clients.length ≤ ch.maxChannelSubscribers) := by
  refine ⟨?_, ?_, ?_, ?_, fun ids h => runAddClients_length_le ids ch h⟩
  · intro h
    simp [Channel.addClient, Channel.exiting] at h ⊢
    simp [h]
  · intro h hmem
    simp [Channel.exiting] at h
    simp [Channel.addClient, Channel.exiting, h, hmem]
  · intro h hmem hfull
    simp [Channel.exiting] at h
    simp [Channel.addClient, Channel.exiting, h, hmem, hfull]
  · intro h hmem hroom
    simp [Channel.exiting] at h
    simp [Channel.addClient, Channel.exiting, h, hmem, Nat.not_le.mpr hroom]

/-- C3 witness: on a concrete full channel (max 1, one client), a
duplicate add succeeds without change and a distinct second add fails
with `MaxSubscriberReached`; on the concrete empty channel the first add
registers the client. -/
theorem c3_witness :
    Channel.addClient ⟨false, [1], 1, []⟩ 1 = (.ok (), ⟨false, [1], 1, []⟩) ∧
    Channel.addClient ⟨false, [1], 1, []⟩ 2 =
      (.error (.maxSubscriberReached 1), ⟨false, [1], 1, []⟩) ∧
    Channel.addClient ⟨false, [], 1, []⟩ 1 = (.ok (), ⟨false, [1], 1, []⟩) :=
  ⟨(c3_add_client ⟨false, [1], 1, []⟩ 1).2.1 rfl (by decide),
    (c3_add_client ⟨false, [1], 1, []⟩ 2).2.2.1 rfl (by decide) (by decide),
    (c3_add_client ⟨false, [], 1, []⟩ 1).2.2.2.1 rfl (by decide) (by decide)⟩

/-- `heapPopMax` yields nothing exactly on the empty heap. -/
theorem heapPopMax_eq_none_iff (l : List MsgItem) :
    heapPopMax l = none ↔ l = [] := by
  cases l with
  | nil => simp [heapPopMax]
  | cons x xs =>
    simp only [heapPopMax]
    cases heapPopMax xs with
    | none => simp
    | some p =>
      obtain ⟨m, rest⟩ := p
      dsimp only
      split_ifs <;> simp

/-- The element popped by the reversed `MsgItem` ordering is a member of
the heap, carries the minimum deadline, and the heap splits into it plus
the rest: `BinaryHeap::pop` under `MsgItem`'s `Ord` removes the earliest
deadline first. -/
theorem heapPopMax_spec :
    ∀ (l : List MsgItem) (m : MsgItem) (rest : List MsgItem),
      heapPopMax l = some (m, rest) →
      l.Perm (m :: rest) ∧ ∀ x ∈ l, m.1 ≤ x.1 := by
  intro l
  induction l with
  | nil => intro m rest h; simp [heapPopMax] at h
  | cons x xs ih =>
    intro m rest h
    cases hm : heapPopMax xs with
    | none =>
      have hxs : xs = [] := (heapPopMax_eq_none_iff xs).mp hm
      subst hxs
      rw [heapPopMax, hm] at h
      dsimp only at h
      have hmr : m = x ∧ rest = [] := by
        have h' := h.symm
        simp at h'
        exact h'
      obtain ⟨rfl, rfl⟩ := hmr
      exact ⟨List.Perm.refl _, by intro y hy; simp at hy; rw [hy]⟩
    | some p =>
      obtain ⟨m', rest'⟩ := p
      rw [heapPopMax, hm] at h
      dsimp only at h
      obtain ⟨hperm', hmin'⟩ := ih m' rest' hm
      by_cases hc : msgItemCmp x m' = .lt
      · rw [if_pos hc] at h
        have hmr : m = m' ∧ rest = x :: rest' := by
          have h' := h.symm
          simp at h'
          exact h'
        obtain ⟨rfl, rfl⟩ := hmr
        have hlt : m.1 < x.1 := by
          have hc' := hc
          unfold msgItemCmp at hc'
          exact Nat.compare_eq_lt.mp hc'
        constructor
        · exact (hperm'.cons x).trans (List.Perm.swap m x rest')
        · intro y hy
          rcases List.mem_cons.mp hy with hy | hy
          · rw [hy]; omega
          · exact hmin' y hy
      · rw [if_neg hc] at h
        have hmr : m = x ∧ rest = xs := by
          have h' := h.symm
          simp at h'
          exact h'
        obtain ⟨rfl, rfl⟩ := hmr
        have hge : m.1 ≤ m'.1 := by
          unfold msgItemCmp at hc
          rcases Nat.lt_or_ge m'.1 m.1 with hlt | hge2
          · exact absurd (Nat.compare_eq_lt.mpr hlt) hc
          · exact hge2
        constructor
        · exact List.Perm.refl _
        · intro y hy
          rcases List.mem_cons.mp hy with hy | hy
          · rw [hy]
          · exact le_trans hge (hmin' y hy)

/-- C4: `Channel::pop_defered_msg(curr)` returns nothing and leaves the
deferred heap unchanged when every deadline lies strictly beyond `curr`;
when it returns a message, that message was deferred to some deadline
`d ≤ curr` that is minimal over the whole heap (so a message deferred
until `D` is never returned before `D`), and the heap loses exactly that
entry; and whenever some entry's deadline has been reached, a message is
returned (availability at or after the deadline, equality included). -/
theorem c4_pop_defered_msg (ch : Channel) (curr : Nat) :
    ((∀ x ∈ ch.deferedPq, curr < x.1) → ch.popDeferedMsg curr = (none, ch)) ∧
    (∀ msg ch', ch.popDeferedMsg curr = (some msg, ch') →
      ∃ d, d ≤ curr ∧ (d, msg) ∈ ch.deferedPq ∧
        (∀ x ∈ ch.deferedPq, d ≤ x.1) ∧
        ch.deferedPq.Perm ((d, msg) :: ch'.deferedPq)) ∧
    (∀ x ∈ ch.deferedPq, x.1 ≤ curr →
      ∃ msg ch', ch.popDeferedMsg curr = (some msg, ch')) := by
  refine ⟨?_, ?_, ?_⟩
  · intro hall
    cases hp : heapPopMax ch.deferedPq with
    | none => rw [Channel.popDeferedMsg, hp]
    | some p =>
      obtain ⟨m, rest⟩ := p
      obtain ⟨hperm, _⟩ := heapPopMax_spec _ _ _ hp
      have hmem : m ∈ ch.deferedPq := hperm.symm.subset (List.mem_cons_self m rest)
      rw [Channel.popDeferedMsg, hp]
      dsimp only
      rw [if_neg (by have := hall m hmem; omega)]
  · intro msg ch' h
    cases hp : heapPopMax ch.deferedPq with
    | none => rw [Channel.popDeferedMsg, hp] at h; simp at h
    | some p =>
      obtain ⟨m, rest⟩ := p
      rw [Channel.popDeferedMsg, hp] at h
      dsimp only at h
      obtain ⟨hperm, hmin⟩ := heapPopMax_spec _ _ _ hp
      by_cases hle : m.1 ≤ curr
      · rw [if_pos hle] at h
        simp at h
        obtain ⟨hmsg, hch⟩ := h
        refine ⟨m.1, hle, ?_, hmin, ?_⟩
        · rw [← hmsg]
          simpa using hperm.symm.subset (List.mem_cons_self m rest)
        · rw [← hmsg, ← hch]
          simpa using hperm
      · rw [if_neg hle] at h
        simp at h
  · intro x hx hxc
    cases hp : heapPopMax ch.deferedPq with
    | none =>
      rw [(heapPopMax_eq_none_iff _).mp hp] at hx
      simp at hx
    | some p =>
      obtain ⟨m, rest⟩ := p
      obtain ⟨_, hmin⟩ := heapPopMax_spec _ _ _ hp
      rw [Channel.popDeferedMsg, hp]
      dsimp only
      rw [if_pos (le_trans (hmin x hx) hxc)]
      exact ⟨_, _, rfl⟩

/-- C4 witness: on a concrete two-element heap with deadlines 5 and 3 at
clock 4, the pop returns the deadline-3 message: applying the theorem
yields a deadline that is at most 4 and minimal in the heap. -/
theorem c4_witness :
    ∃ d, d ≤ 4 ∧
      (d, ({ id := [2], body := [], timestamp := 0, attempts := 0 } : Message)) ∈
        [((5 : Nat), ({ id := [1], body := [], timestamp := 0, attempts := 0 } : Message)),
          ((3 : Nat), ({ id := [2], body := [], timestamp := 0, attempts := 0 } : Message))] ∧
      (∀ x ∈ [((5 : Nat), ({ id := [1], body := [], timestamp := 0, attempts := 0 } : Message)),
          ((3 : Nat), ({ id := [2], body := [], timestamp := 0, attempts := 0 } : Message))],
        d ≤ x.1) ∧
      List.Perm
        [((5 : Nat), ({ id := [1], body := [], timestamp := 0, attempts := 0 } : Message)),
          ((3 : Nat), ({ id := [2], body := [], timestamp := 0, attempts := 0 } : Message))]
        ((d, ({ id := [2], body := [], timestamp := 0, attempts := 0 } : Message)) ::
          [((5 : Nat), ({ id := [1], body := [], timestamp := 0, attempts := 0 } : Message))]) :=
  (c4_pop_defered_msg
    ⟨false, [], 0,
      [((5 : Nat), { id := [1], body := [], timestamp := 0, attempts := 0 }),
        ((3 : Nat), { id := [2], body := [], timestamp := 0, attempts := 0 })]⟩ 4).2.1
    { id := [2], body := [], timestamp := 0, attempts := 0 }
    ⟨false, [], 0, [((5 : Nat), { id := [1], body := [], timestamp := 0, attempts := 0 })]⟩
    rfl

/-- `new_guid` never decreases the stored `last_id` (error paths leave it
unchanged; a success stores the strictly larger fresh id). -/
theorem newGuid_lastId_le (f : GuidFactory) (ts : Int) :
    f.lastId ≤ (f.newGuid ts).2.lastId := by
  unfold GuidFactory.newGuid
  dsimp only
  split_ifs <;> dsimp only <;> omega

/-- A successful `new_guid` returns a guid strictly above the previous
`last_id` and stores it. -/
theorem newGuid_ok_gt (f : GuidFactory) (ts : Int) (g : Int)
    (h : (f.newGuid ts).1 = .ok g) :
    f.lastId < g ∧ (f.newGuid ts).2.lastId = g := by
  unfold GuidFactory.newGuid at h ⊢
  dsimp only at h ⊢
  split_ifs at h ⊢
  all_goals first
    | (exfalso; simp at h; done)
    | (simp at h; dsimp only; exact ⟨by omega, h⟩)

/-- Every guid produced by a call sequence exceeds the initial
`last_id`. -/
theorem runGuids_gt :
    ∀ (tss : List Int) (f : GuidFactory) (g : Int),
      g ∈ f.runGuids tss → f.lastId < g := by
  intro tss
  induction tss with
  | nil => intro f g hg; simp [GuidFactory.runGuids] at hg
  | cons t rest ih =>
    intro f g hg
    rw [GuidFactory.runGuids] at hg
    have hmono := newGuid_lastId_le f t
    cases hn : f.newGuid t with
    | mk r f' =>
      rw [hn] at hg hmono
      cases r with
      | ok g0 =>
        dsimp only at hg hmono
        rcases List.mem_cons.mp hg with hg | hg
        · subst hg
          exact (newGuid_ok_gt f t g (by rw [hn])).1
        · exact lt_of_le_of_lt hmono (ih f' g hg)
      | error e =>
        dsimp only at hg hmono
        exact lt_of_le_of_lt hmono (ih f' g hg)

/-- C7: with the sampled clock value as an explicit input, `new_guid`
fails with the clock-backwards error when the sample regresses, fails
with the sequence-exhausted error when the sample repeats and the 12-bit
sequence wraps to zero, and the guids of any sequence of successful calls
are strictly increasing. -/
theorem c7_new_guid :
    (∀ (f : GuidFactory) (ts : Int), ts < f.lastTimestamp →
      f.newGuid ts = (.error .timeBackwards, f)) ∧
    (∀ (f : GuidFactory) (ts : Int), f.lastTimestamp = ts →
      (f.sequence + 1) % 4096 = 0 →
      (f.newGuid ts).1 = .error .sequenceExpired) ∧
    (∀ (f : GuidFactory) (tss : List Int),
      (f.runGuids tss).Sorted (· < ·)) := by
  refine ⟨?_, ?_, ?_⟩
  · intro f ts h
    unfold GuidFactory.newGuid
    rw [if_pos h]
  · intro f ts heq hwrap
    unfold GuidFactory.newGuid
    rw [if_neg (by omega)]
    dsimp only
    rw [if_pos (by rw [if_pos heq]; exact ⟨heq, hwrap⟩)]
  · intro f tss
    induction tss generalizing f with
    | nil => simp [GuidFactory.runGuids]
    | cons t rest ih =>
      rw [GuidFactory.runGuids]
      cases hn : f.newGuid t with
      | mk r f' =>
        cases r with
        | ok g0 =>
          dsimp only
          rw [List.sorted_cons]
          refine ⟨?_, ih f'⟩
          intro b hb
          have hst := (newGuid_ok_gt f t g0 (by rw [hn])).2
          rw [hn] at hst
          dsimp only at hst
          calc g0 = f'.lastId := hst.symm
            _ < b := runGuids_gt rest f' b hb
        | error e =>
          dsimp only
          exact ih f'

/-- C7 witness: a concrete regressed sample fails with the
clock-backwards error; a concrete repeated sample with the sequence at
4095 fails with the sequence-exhausted error. -/
theorem c7_witness :
    GuidFactory.newGuid ⟨1, 0, 100, 0⟩ 50 = (.error .timeBackwards, ⟨1, 0, 100, 0⟩) ∧
    (GuidFactory.newGuid ⟨1, 4095, 100, 0⟩ 100).1 = .error .sequenceExpired :=
  ⟨c7_new_guid.1 ⟨1, 0, 100, 0⟩ 50 (by decide),
    c7_new_guid.2.1 ⟨1, 4095, 100, 0⟩ 100 rfl (by decide)⟩

/-- The embedded regex language coincides with "one or more class
characters followed by an optional literal `#ephemeral`". -/
theorem nameRegexMatches_iff (n : List Nat) :
    nameRegexMatches n = true ↔
      ∃ core suffix, n = core ++ suffix ∧ core ≠ [] ∧
        (∀ b ∈ core, isNameChar b = true) ∧
        (suffix = [] ∨ suffix = ephemeralSuffix) := by
  constructor
  · intro h
    unfold nameRegexMatches at h
    rw [Bool.or_eq_true] at h
    rcases h with h | h
    · rw [Bool.and_eq_true] at h
      obtain ⟨h1, h2⟩ := h
      refine ⟨n, [], by simp, ?_, ?_, Or.inl rfl⟩
      · intro hn
        rw [hn] at h1
        simp at h1
      · intro b hb
        exact List.all_eq_true.mp h2 b hb
    · rw [Bool.and_eq_true, Bool.and_eq_true] at h
      obtain ⟨hsuf, h1, h2⟩ := h
      obtain ⟨t, ht⟩ := of_decide_eq_true hsuf
      have hcoreEq : n.take (n.length - ephemeralSuffix.length) = t := by
        rw [← ht, List.length_append, Nat.add_sub_cancel]
        exact List.take_left t ephemeralSuffix
      rw [hcoreEq] at h1 h2
      refine ⟨t, ephemeralSuffix, ht.symm, ?_, ?_, Or.inr rfl⟩
      · intro htne
        rw [htne] at h1
        simp at h1
      · intro b hb
        exact List.all_eq_true.mp h2 b hb
  · rintro ⟨core, suffix, rfl, hcne, hcall, hs | hs⟩
    · subst hs
      unfold nameRegexMatches
      rw [Bool.or_eq_true]
      left
      rw [Bool.and_eq_true]
      constructor
      · simp [hcne]
      · simp only [List.append_nil]
        exact List.all_eq_true.mpr hcall
    · subst hs
      unfold nameRegexMatches
      rw [Bool.or_eq_true]
      right
      rw [Bool.and_eq_true, Bool.and_eq_true]
      have hcoreEq : (core ++ ephemeralSuffix).take
          ((core ++ ephemeralSuffix).length - ephemeralSuffix.length) = core := by
        rw [List.length_append, Nat.add_sub_cancel]
        exact List.take_left core ephemeralSuffix
      refine ⟨decide_eq_true ⟨core, rfl⟩, ?_, ?_⟩
      · rw [hcoreEq]
        simp [hcne]
      · rw [hcoreEq]
        exact List.all_eq_true.mpr hcall

/-- C6: both name validators accept a byte string exactly when its length
is between 2 and 64 inclusive and it is one or more characters of
`[.A-Za-z0-9_-]` followed by an optional literal `#ephemeral`; every
other input is rejected with the fatal client error `E_BAD_TOPIC`. -/
theorem c6_name_validation (n : List Nat) :
    (checkName n = .ok () ↔ specNameOk n) ∧
    (tryToStringName n = .ok n ↔ specNameOk n) ∧
    (¬ specNameOk n →
      checkName n = .error (badTopicErr n) ∧
      tryToStringName n = .error (badTopicErr n)) ∧
    (∃ msg, badTopicErr n = .fatalClientErr "E_BAD_TOPIC" msg) := by
  have hkey : (2 ≤ n.length ∧ n.length ≤ 64 ∧ nameRegexMatches n = true) ↔
      specNameOk n := by
    unfold specNameOk
    rw [← nameRegexMatches_iff]
  constructor
  · unfold checkName
    split_ifs with hcond
    · exact ⟨fun _ => hkey.mp hcond, fun _ => rfl⟩
    · constructor
      · intro hc; simp at hc
      · intro hs; exact absurd (hkey.mpr hs) hcond
  constructor
  · unfold tryToStringName
    split_ifs with hcond
    · exact ⟨fun _ => hkey.mp hcond, fun _ => rfl⟩
    · constructor
      · intro hc; simp at hc
      · intro hs; exact absurd (hkey.mpr hs) hcond
  constructor
  · intro hno
    rw [← hkey] at hno
    unfold checkName tryToStringName
    rw [if_neg hno, if_neg hno]
    exact ⟨rfl, rfl⟩
  · exact ⟨_, rfl⟩

/-- C6 witness: the concrete name `"ab#ephemeral"` (length 12, two class
characters plus the literal suffix) is accepted by `check_name`, via the
specification side of the equivalence. -/
theorem c6_witness :
    checkName ([97, 98] ++ ephemeralSuffix) = .ok () :=
  (c6_name_validation ([97, 98] ++ ephemeralSuffix)).1.mpr
    ⟨by decide, by decide,
      [97, 98], ephemeralSuffix, rfl, by decide, by decide, Or.inr rfl⟩

end NsqRs
